import Mathlib

/-!
Verification of the dinnersnap-server pantry-normalization and
recipe-admissibility pipeline (src/api/analyze.js).

The JavaScript source is shallowly embedded: each JS function is translated
into an executable Lean definition over `String`, `List`, `Nat`, `Int` and `ℚ`
(JS numbers that only ever hold integral minute/count values are modelled as
`Int`/`Nat`; the score arithmetic, written with decimal literals in JS, is
modelled exactly over `ℚ`).  Impure reads (`Date.now()`, `Math.random()`) are
made explicit parameters.  The repository file contains three historical
revisions of the same module; where a claim cites both the second and the
final revision, both are embedded (the final revision's definitions carry the
suffix `Final`).
-/

namespace DinnerSnap

/- ----------------------- String helpers ----------------------- -/

/-- JS `needle` prefix test on character lists (helper for `hasSubList`). -/
def startsWithList : List Char → List Char → Bool
  | _, [] => true
  | [], _ :: _ => false
  | c :: cs, d :: ds => (c = d) && startsWithList cs ds

/-- JS `s.includes(sub)`: `sub` occurs contiguously inside `s`. -/
def hasSubList (s sub : List Char) : Bool :=
  match s with
  | [] => sub.isEmpty
  | _ :: cs => startsWithList s sub || hasSubList cs sub

/-- JS `s.includes(sub)` on strings. -/
def strIncludes (s sub : String) : Bool :=
  hasSubList s.data sub.data

/-- JS `s.toLowerCase()` (character-wise lowering; written over the character
list so that the kernel can evaluate it). -/
def strLower (s : String) : String :=
  String.mk (s.data.map Char.toLower)

/-- JS `s.trim()` for strings whose characters are already restricted to
`[a-z ]` (strip leading and trailing spaces). -/
def trimSpaces (l : List Char) : List Char :=
  ((l.dropWhile (fun c => c = ' ')).reverse.dropWhile (fun c => c = ' ')).reverse

/-- JS `title.split(/[^a-z]+/g)` worker: split a char list at non-`a`-`z`
characters. -/
def splitNonAlphaAux : List Char → List Char → List (List Char)
  | [], acc => [acc.reverse]
  | c :: cs, acc =>
      if c.isLower then splitNonAlphaAux cs (c :: acc)
      else acc.reverse :: splitNonAlphaAux cs []

/-- JS `title.split(/[^a-z]+/g).filter(Boolean)`. -/
def titleWordsOf (s : String) : List String :=
  ((splitNonAlphaAux s.data []).filter (fun l => l ≠ [])).map (fun l => ⟨l⟩)

/- ----------------------- Classifiers & constants (analyze.js) ----------------------- -/

/-- `const DESSERT = new Set([...])` (identical in both embedded revisions). -/
def DESSERT : List String :=
  ["dessert","pudding","ice cream","smoothie","shake","cookie","brownie","cupcake","cake",
   "muffin","pancake","waffle","jam","jelly","compote","truffle","fudge","sorbet","parfait",
   "custard","tart","shortbread","licorice","cobbler"]

/-- `const DRINK = new Set([...])`. -/
def DRINK : List String :=
  ["drink","beverage","mocktail","cocktail","margarita","mojito","spritzer","soda","punch","toddy"]

/-- `const ALCOHOL = new Set([...])`. -/
def ALCOHOL : List String :=
  ["brandy","rum","vodka","gin","whisky","whiskey","bourbon","tequila","wine","liqueur",
   "amaretto","cognac","port","sherry"]

/-- `const GENERIC = new Set([...])`. -/
def GENERIC : List String :=
  ["pasta","rice","bread","flour","sugar","oil","salt","pepper"]

/-- `const MEAT = new Set([...])`. -/
def MEAT : List String :=
  ["chicken","beef","pork","lamb","bacon","ham","turkey","shrimp","prawn","salmon","tuna","fish"]

/-- `const PASTA = new Set([...])` (second revision). -/
def PASTA : List String :=
  ["pasta","spaghetti","macaroni","penne","farfalle","orzo","fusilli","linguine","tagliatelle"]

/-- `const MAIN_WORDS = new Set([...])` (second revision). -/
def MAIN_WORDS : List String :=
  ["mushroom","mushrooms",
   "chicken","beef","pork","lamb","bacon","ham","turkey","sausage",
   "salmon","tuna","prawn","shrimp"]

/-- `const ALLOWED_EXTRAS = [...]` (second revision). -/
def ALLOWED_EXTRAS : List String :=
  ["water","salt","pepper","oil","olive oil","butter","sugar","flour","stock","stock cube"]

/-- `titleHasAny(title, set)`: some word of `set` is a substring of the
lowercased title. -/
def titleHasAny (title : String) (set : List String) : Bool :=
  set.any (fun w => strIncludes (strLower title) w)

/- ----------------------- Pantry cleanup (analyze.js) ----------------------- -/

/-- `const WHITELIST = [...]` — the canonical ingredient vocabulary (identical
in both embedded revisions; note the source lists "pepper" twice). -/
def WHITELIST : List String :=
  ["banana","broccoli","chickpeas","beans","kidney beans","tomatoes","onion","garlic","ginger","olive oil",
   "pasta","spaghetti","courgette","feta","orzo","rice","egg","spring onion","lemon","orange","avocado",
   "coconut milk","coconut cream","butternut squash","squash","carrot","pepper","bell pepper","spinach",
   "potato","mushroom","cheese","cheddar","yogurt","milk","almond milk","chicken","chicken breast","beef",
   "pork","fish","salmon","tuna","bread","tortilla","wrap","lentils","cucumber","lettuce","cabbage","kale",
   "apple","pear","oats","flour","sugar","butter","salt","pepper","stock cube","curry powder","mixed dried herbs",
   "garam masala","maggi seasoning","jeera","cumin","cloves"]

/-- `const MAP = {...}` — the synonym table, as an association list. -/
def MAP : List (String × String) :=
  [("bananas", "banana"),
   ("chickpea", "chickpeas"),
   ("garbanzo", "chickpeas"),
   ("garbanzo bean", "chickpeas"),
   ("garbanzo beans", "chickpeas"),
   ("zucchini", "courgette"),
   ("courgettes", "courgette"),
   ("tomato", "tomatoes"),
   ("onions", "onion"),
   ("eggs", "egg"),
   ("brockley", "broccoli"),
   ("maggi", "maggi seasoning"),
   ("jeera powder", "jeera")]

/-- JS `MAP[t0] || t0`. -/
def mapSyn (t0 : String) : String :=
  match MAP.lookup t0 with
  | some v => v
  | none => t0

/-- JS `Set.add` on an insertion-ordered set represented as a duplicate-free
list (appends at the end if absent, like iteration over a JS `Set`). -/
def insertUniq (xs : List String) (x : String) : List String :=
  if x ∈ xs then xs else xs ++ [x]

/-- `const uniqLower = (arr) => [...new Set(arr.map(x => String(x).toLowerCase()))]`. -/
def uniqLower (arr : List String) : List String :=
  (arr.map strLower).foldl insertUniq []

/-- Inner cell pass of the `lev` dynamic program: given the suffix of `a`
still to process, the current character `bc` of `b`, the tail of the previous
row starting at the diagonal cell, and the cell to the left, produce the rest
of the current row (`m[i][j] = min(m[i-1][j]+1, m[i][j-1]+1,
m[i-1][j-1] + (b[i-1]===a[j-1]?0:1))`). -/
def levRow : List Char → Char → List Nat → Nat → List Nat
  | [], _, _, _ => []
  | _ :: _, _, [], _ => []
  | ac :: as2, bc, pdiag :: prest, left =>
      let pup := prest.headD 0
      let cell := min (min (pup + 1) (left + 1)) (pdiag + (if bc = ac then 0 else 1))
      cell :: levRow as2 bc prest cell

/-- Outer row loop of the `lev` dynamic program: each new row starts with its
row index (`m[i][0] = i`). -/
def levRowsLoop (a : List Char) : List Char → List Nat → Nat → List Nat
  | [], row, _ => row
  | bc :: bs, row, i => levRowsLoop a bs (i :: levRow a bc row i) (i + 1)

/-- `function lev(a, b)` — the edit-distance dynamic program of analyze.js
(first row `m[0][j] = j`, result `m[b.length][a.length]`). -/
def lev (a b : List Char) : Nat :=
  (levRowsLoop a b (List.range (a.length + 1)) 1).getLastD 0

/-- `lev` applied to strings, as in `nearestWhitelistStrict`. -/
def levStr (a b : String) : Nat := lev a.data b.data

/-- Loop body of `nearestWhitelistStrict`: track the best term and the best
distance (`if (d < bestDist) { bestDist = d; best = w; }`). -/
def nearestStep (term : String) (st : Option String × Nat) (w : String) :
    Option String × Nat :=
  let d := levStr term w
  if d < st.2 then (some w, d) else st

/-- `function nearestWhitelistStrict(term)`: scan the whitelist with
`bestDist` starting at 2; accept only if the final best distance is ≤ 1. -/
def nearestWhitelistStrict (term : String) : Option String :=
  let st := WHITELIST.foldl (nearestStep term) (none, 2)
  if st.2 ≤ 1 then st.1 else none

/-- Loop body of `cleanPantry`: synonym-map the token, accept exact whitelist
members, otherwise fuzzy-match only tokens of length ≥ 5, otherwise drop. -/
def cleanStep (out : List String) (t0 : String) : List String :=
  let t := mapSyn t0
  if t ∈ WHITELIST then insertUniq out t
  else if 5 ≤ t.length then
    match nearestWhitelistStrict t with
    | some near => insertUniq out near
    | none => out
  else out

/-- `function cleanPantry(raw)` (identical in both embedded revisions). -/
def cleanPantry (raw : List String) : List String :=
  (uniqLower raw).foldl cleanStep []

/- ----------------------- Reference edit distance ----------------------- -/

/-- The classic Levenshtein edit distance (insertion, deletion, substitution
each cost 1), written as the textbook recursion.  This is the specification's
"classic dynamic-programming edit distance"; `lev_eq_editDist` below proves
the analyze.js dynamic program computes exactly this function. -/
def editDist : List Char → List Char → Nat
  | [], bs => bs.length
  | a :: as2, [] => (a :: as2).length
  | a :: as2, b :: bs2 =>
      min (min (editDist as2 (b :: bs2) + 1) (editDist (a :: as2) bs2 + 1))
        (editDist as2 bs2 + (if b = a then 0 else 1))
termination_by as bs => as.length + bs.length
decreasing_by all_goals simp_wf <;> omega

/- ----------------------- Data model ----------------------- -/

/-- A recipe ingredient entry `{ name, have }`.  The JSON field `have` is a
Lean keyword, so it is embedded as `hasIt`. -/
structure Ing where
  name : String
  hasIt : Bool
deriving DecidableEq, Repr

/-- A recipe step `{ id, text }`. -/
structure Step where
  id : String
  text : String
deriving DecidableEq, Repr

/-- A normalized recipe as produced for the response.  Recipes whose JS object
carries no `score` / `shoppingList` property are embedded with `score := none`
/ `shoppingList := []`. -/
structure Recipe where
  id : String
  title : String
  time : Int
  cost : ℚ
  energy : String
  score : Option ℚ
  ingredients : List Ing
  steps : List Step
  badges : List String
  shoppingList : List String
deriving DecidableEq, Repr

/-- The user `prefs` object (all fields optional in JS). -/
structure Prefs where
  time : Option Int
  diet : Option String
  energyMode : Option String
  servings : Option Nat
  explore : Option Nat
  pantryOnly : Bool
deriving DecidableEq, Repr

/-- A raw Spoonacular candidate, restricted to the fields analyze.js reads
(`extendedIngredients` is embedded as the list of its `name` strings, and
`analyzedInstructions[0].steps` as the list of its `step` strings). -/
structure RawCandidate where
  id : String
  title : String
  dishTypes : List String
  extendedIngredients : List String
  usedIngredientCount : Option Nat
  missedIngredientCount : Option Nat
  readyInMinutes : Option Int
  steps : List String
deriving DecidableEq, Repr

/- ----------------------- Spoonacular (analyze.js) ----------------------- -/

/-- `const timeCap = Math.max(10, (prefs?.time ?? 25) + 10)` (identical in
both embedded revisions). -/
def timeCapOf (prefs : Prefs) : Int :=
  max 10 (prefs.time.getD 25 + 10)

/-- The query parameters set on the Spoonacular `complexSearch` URL, in
source order; `diet=vegetarian` is appended iff the pantry has no meat word
(`if (!hasMeat) url.searchParams.set("diet", "vegetarian")`).  Identical in
both embedded revisions. -/
def spoonSearchParams (spoonKey : String) (pantry : List String) (prefs : Prefs) :
    List (String × String) :=
  let hasMeat := pantry.any (fun p => MEAT.contains p)
  let includeIngs := String.intercalate "," pantry
  let tc := timeCapOf prefs
  [("apiKey", spoonKey),
   ("includeIngredients", includeIngs),
   ("instructionsRequired", "true"),
   ("addRecipeInformation", "true"),
   ("sort", "max-used-ingredients"),
   ("number", "18"),
   ("ignorePantry", "true"),
   ("type", "main course"),
   ("excludeIngredients", String.intercalate "," ALCOHOL),
   ("maxReadyTime", toString tc)] ++
  (if hasMeat then [] else [("diet", "vegetarian")])

/-- The hit/missing loop of the second revision's filter: per ingredient name,
strip non-`[a-z ]` characters and trim; skip empty; count a hit if some pantry
entry is a substring, ignore staples, otherwise count missing and record the
simplified name.  Returns `(hit, missing, missingList)`. -/
def hitMissing (pantry ingNames : List String) : Nat × Nat × List String :=
  ingNames.foldl
    (fun acc rawName =>
      let simple := String.mk (trimSpaces (rawName.data.filter (fun c => c.isLower || c = ' ')))
      if simple = "" then acc
      else
        let inPantry := pantry.any (fun p => strIncludes simple p)
        let isStaple := ALLOWED_EXTRAS.any (fun p => strIncludes simple p)
        if inPantry then (acc.1 + 1, acc.2.1, acc.2.2)
        else if isStaple then acc
        else (acc.1, acc.2.1 + 1, acc.2.2 ++ [simple]))
    (0, 0, [])

/-- The second revision's strict admissibility filter (`raw.filter((it) => ...)`
in `spoonacularRecipes`); the JS float literal `0.6` is embedded as `6/10`. -/
def strictFilter (pantry : List String) (tc : Int) (it : RawCandidate) : Bool :=
  let title := strLower it.title
  let dish := it.dishTypes.map strLower
  let ingNames := it.extendedIngredients.map strLower
  let specific := pantry.filter (fun p => !GENERIC.contains p)
  if titleHasAny title DESSERT then false
  else if titleHasAny title DRINK then false
  else if titleHasAny title ALCOHOL then false
  else if dish.any (fun d => (["drink", "beverage", "cocktail", "dessert"] : List String).contains d) then false
  else
    let used := it.usedIngredientCount.getD 0
    let time := it.readyInMinutes.getD 999
    if used < 2 then false
    else if time > tc then false
    else if 3 ≤ specific.length ∧
        ((specific.filter (fun sp => ingNames.any (fun n => strIncludes n sp))).length < 2) then false
    else if (["shrimp", "prawn", "salmon", "tuna", "anchovy", "sardine"] : List String).any
          (fun w => strIncludes title w) &&
        !(pantry.any (fun p => (["shrimp", "prawn", "salmon", "tuna", "fish"] : List String).contains p)) then false
    else if MAIN_WORDS.any (fun w =>
        (titleWordsOf title).contains w && !(pantry.any (fun p => strIncludes p w))) then false
    else
      let hm := hitMissing pantry ingNames
      if hm.2.1 > 2 then false
      else if hm.1 < 2 then false
      else if hm.1 + hm.2.1 > 0 ∧ ((hm.1 : ℚ) / ((hm.1 : ℚ) + (hm.2.1 : ℚ)) < 6/10) then false
      else true

/-- The final revision's strict admissibility filter. -/
def strictFilterFinal (pantry : List String) (tc : Int) (it : RawCandidate) : Bool :=
  let title := strLower it.title
  let dish := it.dishTypes.map strLower
  let specific := pantry.filter (fun p => !GENERIC.contains p)
  if DESSERT.any (fun w => strIncludes title w) then false
  else if DRINK.any (fun w => strIncludes title w) then false
  else if ALCOHOL.any (fun w => strIncludes title w) then false
  else if dish.any (fun d => (["drink", "beverage", "cocktail", "dessert"] : List String).contains d) then false
  else
    let used := it.usedIngredientCount.getD 0
    let time := it.readyInMinutes.getD 999
    if used < 2 then false
    else if time > tc then false
    else if 2 ≤ specific.length ∧
        ¬ (specific.any (fun sp =>
            (it.extendedIngredients.map strLower).any (fun n => strIncludes n sp)) = true) then false
    else if (["shrimp", "prawn", "salmon", "tuna", "anchovy", "sardine"] : List String).any
          (fun w => strIncludes title w) &&
        !(pantry.any (fun p => (["shrimp", "prawn", "salmon", "tuna", "fish"] : List String).contains p)) then false
    else true

/-- JS `Math.round(x)` (round half towards positive infinity) followed by
`/ 100`, as in `Math.round(score * 100) / 100`. -/
def roundTwo (x : ℚ) : ℚ :=
  ((⌊x * 100 + 1/2⌋ : ℤ) : ℚ) / 100

/-- The candidate score before rounding:
`0.7 * (used / (used + missed + 1)) + 0.3 * (1 - Math.min(time, 60) / 60)`
(identical in both embedded revisions; decimal literals embedded exactly as
rationals). -/
def rawScore (used missed : Nat) (time : Int) : ℚ :=
  7/10 * ((used : ℚ) / ((used : ℚ) + (missed : ℚ) + 1)) +
    3/10 * (1 - (min (time : ℚ) 60) / 60)

/-- The second revision's `scored` mapping of one candidate.  The mutable
`it._dsMissing` stash (set only on candidates that pass the strict filter) is
reproduced by recomputing the filter verdict. -/
def scoreCand (pantry : List String) (tc : Int) (it : RawCandidate) : Recipe :=
  let used := it.usedIngredientCount.getD 0
  let missed := it.missedIngredientCount.getD 0
  let time := it.readyInMinutes.getD 30
  let ingObjs := it.extendedIngredients.map (fun nm0 =>
    let nm := strLower nm0
    Ing.mk nm (pantry.contains nm))
  let missingList :=
    if strictFilter pantry tc it then (hitMissing pantry (it.extendedIngredients.map strLower)).2.2
    else []
  { id := it.id, title := it.title, time := time, energy := "hob", cost := 5/2,
    score := some (roundTwo (rawScore used missed time)),
    ingredients := ingObjs,
    steps := it.steps.enum.map (fun p => Step.mk (it.id ++ "-s" ++ toString p.1) p.2),
    badges := ["web"], shoppingList := missingList }

/-- The final revision's `scored` mapping of one candidate (no shopping
list). -/
def scoreCandFinal (pantry : List String) (it : RawCandidate) : Recipe :=
  let used := it.usedIngredientCount.getD 0
  let missed := it.missedIngredientCount.getD 0
  let time := it.readyInMinutes.getD 30
  { id := it.id, title := it.title, time := time, energy := "hob", cost := 5/2,
    score := some (roundTwo (rawScore used missed time)),
    ingredients := it.extendedIngredients.map (fun nm0 =>
      let nm := strLower nm0
      Ing.mk nm (pantry.contains nm)),
    steps := it.steps.enum.map (fun p => Step.mk (it.id ++ "-s" ++ toString p.1) p.2),
    badges := ["web"], shoppingList := [] }

/-- The second revision's candidate selection: filter strictly, fall back to
the raw list when the filter keeps nothing
(`const baseList = filtered.length ? filtered : raw`), then score. -/
def spoonacularSelect (pantry : List String) (prefs : Prefs) (raw : List RawCandidate) :
    List Recipe :=
  let tc := timeCapOf prefs
  let filtered := raw.filter (strictFilter pantry tc)
  let baseList := if filtered.length ≠ 0 then filtered else raw
  baseList.map (scoreCand pantry tc)

/-- The final revision's candidate selection (same fallback-to-raw shape). -/
def spoonacularSelectFinal (pantry : List String) (prefs : Prefs) (raw : List RawCandidate) :
    List Recipe :=
  let tc := timeCapOf prefs
  let filtered := raw.filter (strictFilterFinal pantry tc)
  let baseList := if filtered.length ≠ 0 then filtered else raw
  baseList.map (scoreCandFinal pantry)

/- ----------------------- Emergency recipes ----------------------- -/

/-- Dedup of the second revision's emergency ingredient list: keep the first
entry per lowercased name (the `seen` set loop). -/
def dedupByNameLower (l : List Ing) : List Ing :=
  (l.foldl
    (fun acc ing =>
      let nm := strLower ing.name
      if acc.2.contains nm then acc else (acc.1 ++ [ing], acc.2 ++ [nm]))
    (([] : List Ing), ([] : List String))).1

/-- `function emergencyRecipe(pantry)` of the second revision.  Its id is
`"local-" + Date.now() + "-" + Math.random().toString(36).slice(2, 8)`; the
two impure reads are made explicit parameters `now` and `rand`. -/
def emergencyRecipe (pantry : List String) (now : Nat) (rand : String) : Recipe :=
  let titleBits :=
    (if pantry.any (fun p => strIncludes p "chickpea") then ["Chickpea"] else []) ++
    (if pantry.contains "coconut cream" || pantry.contains "coconut milk" then ["Coconut"] else []) ++
    (if pantry.any (fun p => PASTA.contains p) then ["Spaghetti"] else [])
  let title :=
    (if titleBits.length ≠ 0 then String.intercalate " " titleBits else "Pantry") ++ " Savoury Skillet"
  let baseIngs :=
    (if !pantry.contains "onion" then
      [Ing.mk "onion (or onion powder)" (pantry.contains "onion")] else []) ++
    (if !pantry.contains "garlic" then
      [Ing.mk "garlic (or garlic powder)" (pantry.contains "garlic")] else []) ++
    (if !pantry.contains "ginger" then
      [Ing.mk "ginger (or ground ginger)" (pantry.contains "ginger")] else []) ++
    (if !pantry.contains "mixed dried herbs" then
      [Ing.mk "mixed dried herbs" (pantry.contains "mixed dried herbs")] else []) ++
    (if !pantry.contains "stock cube" then
      [Ing.mk "stock cube" (pantry.contains "stock cube")] else []) ++
    (if !pantry.contains "lemon" && !pantry.contains "vinegar" then
      [Ing.mk "lemon or vinegar" (pantry.contains "lemon" || pantry.contains "vinegar")] else []) ++
    (if !pantry.contains "salt" && !pantry.contains "pepper" then
      [Ing.mk "salt & black pepper"
        (pantry.contains "salt" || pantry.contains "black pepper" || pantry.contains "pepper")] else [])
  let uniqPantry := pantry.map (fun p => Ing.mk p true)
  let ingredients := dedupByNameLower (uniqPantry ++ baseIngs)
  let sample0 := String.intercalate ", " (pantry.take 4)
  let sample := if sample0 = "" then "your pantry items" else sample0
  { id := "local-" ++ toString now ++ "-" ++ rand,
    title := title, time := 15, cost := 2, energy := "hob", score := none,
    ingredients := ingredients,
    steps := [Step.mk "s1" "Heat oil; add onion, garlic & ginger. Cook 2-3 min.",
              Step.mk "s2" ("Add your selected pantry ingredients (e.g. " ++ sample ++ ") and simmer 6-8 min.")],
    badges := ["local"], shoppingList := [] }

/-- `function emergencyRecipe(pantry)` of the final revision.  Its id is
`` `local-${Date.now()}` ``; the impure clock read is the `now` parameter. -/
def emergencyRecipeFinal (pantry : List String) (now : Nat) : Recipe :=
  let titleBits :=
    (if pantry.any (fun p => strIncludes p "chickpea") then ["Chickpea"] else []) ++
    (if pantry.contains "coconut milk" then ["Coconut"] else []) ++
    (if pantry.any (fun p => strIncludes p "pasta" || strIncludes p "spaghetti") then ["Pasta"] else [])
  let title :=
    (if titleBits.length ≠ 0 then String.intercalate " " titleBits else "Pantry") ++ " Savoury Skillet"
  let baseIngs :=
    [Ing.mk "onion (or onion powder)" (pantry.contains "onion"),
     Ing.mk "garlic (or garlic powder)" (pantry.contains "garlic"),
     Ing.mk "ginger (or ground ginger)" (pantry.contains "ginger"),
     Ing.mk "mixed dried herbs" (pantry.contains "mixed dried herbs"),
     Ing.mk "stock cube" (pantry.contains "stock cube"),
     Ing.mk "lemon or vinegar" (pantry.contains "lemon" || pantry.contains "vinegar"),
     Ing.mk "salt & black pepper" (pantry.contains "salt" || pantry.contains "black pepper")]
  let uniqPantry := pantry.map (fun p => Ing.mk p true)
  { id := "local-" ++ toString now,
    title := title, time := 15, cost := 2, energy := "hob", score := none,
    ingredients := uniqPantry ++ baseIngs,
    steps := [Step.mk "s1" "Heat oil; add onion, garlic & ginger. Cook 2-3 min.",
              Step.mk "s2" "Add pantry items and simmer 6-8 min."],
    badges := ["local"], shoppingList := [] }

/- ----------------------- Merge & handler ----------------------- -/

/-- The second revision handler's merge: start from the Spoonacular list,
append every LLM recipe whose id is not already present, backfill with the
emergency recipe when empty, then truncate to 3. -/
def mergeHandler (spoonList llmList : List Recipe) (pantry : List String)
    (now : Nat) (rand : String) : List Recipe :=
  let combined := if spoonList.length ≠ 0 then spoonList else []
  let combined :=
    if llmList.length ≠ 0 then
      llmList.foldl
        (fun c rec => if (c.find? (fun r => r.id == rec.id)).isSome then c else c ++ [rec])
        combined
    else combined
  let combined := if combined.length = 0 then [emergencyRecipe pantry now rand] else combined
  if combined.length > 3 then combined.take 3 else combined

/-- The final revision's LLM-append loop, which pushes non-duplicate ids and
breaks once the combined list reaches 3. -/
def addLlmFinal : List Recipe → List Recipe → List Recipe
  | combined, [] => combined
  | combined, rec :: rest =>
      if (combined.find? (fun r => r.id == rec.id)).isSome then addLlmFinal combined rest
      else
        let c2 := combined ++ [rec]
        if c2.length ≥ 3 then c2 else addLlmFinal c2 rest

/-- The final revision `runAnalyze`'s merge (lines building `combined`):
Spoonacular first, LLM recipes appended only while below 3, emergency
backfill when empty, truncation to 3 otherwise. -/
def mergeFinal (spoonList llmList : List Recipe) (pantry : List String) (now : Nat) :
    List Recipe :=
  let combined := if spoonList.length ≠ 0 then spoonList else []
  let combined :=
    if combined.length < 3 ∧ llmList.length ≠ 0 then addLlmFinal combined llmList else combined
  if combined.length = 0 then [emergencyRecipeFinal pantry now]
  else if combined.length > 3 then combined.take 3
  else combined

/-- The successful-path output of `runAnalyze`. -/
structure AnalyzeOut where
  pantry : List String
  recipes : List Recipe
  debugSource : String
deriving DecidableEq, Repr

/-- A JSON response as sent by `sendJson`: status code plus the response
body's fields. -/
structure HttpResponse where
  status : Nat
  pantry : List String
  recipes : List Recipe
  debugSource : String
deriving DecidableEq, Repr

/-- The final revision handler's dispatch on the watchdog race: `some out`
embeds `runAnalyze` settling within `watchdogMs`, `none` embeds the watchdog
rejection, answered by the `catch` block with a 200 fallback built from
`emergencyRecipe([])`. -/
def handlerRespond (outcome : Option AnalyzeOut) (now : Nat) : HttpResponse :=
  match outcome with
  | some out =>
      { status := 200, pantry := out.pantry, recipes := out.recipes,
        debugSource := out.debugSource }
  | none =>
      { status := 200, pantry := [], recipes := [emergencyRecipeFinal [] now],
        debugSource := "watchdog" }

/- ----------------------- Concrete demonstration inputs ----------------------- -/

/-- A request preference set with `time = 20` and no other fields. -/
def demoPrefs : Prefs :=
  { time := some 20, diet := none, energyMode := none, servings := none,
    explore := none, pantryOnly := false }

/-- Like `demoPrefs` but with a stated diet, to exhibit that the diet field is
never forwarded to the search provider. -/
def demoPrefsVegan : Prefs :=
  { time := some 20, diet := some "vegan", energyMode := none, servings := none,
    explore := none, pantryOnly := false }

/-- A candidate declaring `readyInMinutes = 50` (used against the cap of 30
that `demoPrefs` induces). -/
def demoCand50 : RawCandidate :=
  { id := "7", title := "Quick Pasta Bake", dishTypes := ["main course"],
    extendedIngredients := ["pasta", "tomatoes"], usedIngredientCount := some 3,
    missedIngredientCount := some 1, readyInMinutes := some 50, steps := ["cook"] }

/-- A dessert candidate with an absurd ready time; strict filtering rejects
it, which triggers the fallback to the raw list. -/
def demoBrownie : RawCandidate :=
  { id := "9", title := "Chocolate Fudge Brownies", dishTypes := ["dessert"],
    extendedIngredients := ["flour", "sugar"], usedIngredientCount := some 0,
    missedIngredientCount := some 5, readyInMinutes := some 999, steps := [] }

/- ----------------------- Proof-layer definitions ----------------------- -/

/-- Per-token outcome of the `cleanPantry` loop body: the canonical ingredient
the (already lowercased) token contributes, if any. -/
def canonToken (t0 : String) : Option String :=
  let t := mapSyn t0
  if t ∈ WHITELIST then some t
  else if 5 ≤ t.length then nearestWhitelistStrict t
  else none

/-- Specification value of the tail of a `lev` DP row: the edit distances of
the successive extensions of `pfx` by characters of `as`, against `bs`. -/
def rowSpecTail (pfx : List Char) : List Char → List Char → List Nat
  | [], _ => []
  | ac :: as2, bs => editDist (pfx ++ [ac]) bs :: rowSpecTail (pfx ++ [ac]) as2 bs

/-- Specification value of a full `lev` DP row. -/
def rowSpec (pfx as bs : List Char) : List Nat :=
  editDist pfx bs :: rowSpecTail pfx as bs

/- ----------------------- Edit-distance lemmas ----------------------- -/

theorem editDist_nil_left (bs : List Char) : editDist [] bs = bs.length := by
  cases bs <;> simp [editDist]

theorem editDist_nil_right (as : List Char) : editDist as [] = as.length := by
  cases as <;> simp [editDist]

theorem editDist_cons_cons (a b : Char) (as bs : List Char) :
    editDist (a :: as) (b :: bs) =
      min (min (editDist as (b :: bs) + 1) (editDist (a :: as) bs + 1))
        (editDist as bs + (if b = a then 0 else 1)) := by
  rw [editDist]

/-- The three-way-minimum exchange identity behind the diagonal step of the
edit-distance recurrence proof. -/
theorem min_exchange (A1 A2 A3 A4 A5 A6 A7 A8 A9 c d : Nat) :
    min (min (min (min (A1+1) (A2+1)) (A3+d) + 1) (min (min (A4+1) (A5+1)) (A6+d) + 1))
        (min (min (A7+1) (A8+1)) (A9+d) + c) =
    min (min (min (min (A1+1) (A4+1)) (A7+c) + 1) (min (min (A2+1) (A5+1)) (A8+c) + 1))
        (min (min (A3+1) (A6+1)) (A9+c) + d) := by
  simp only [← min_add_add_right]
  ring_nf
  ac_rfl

set_option maxHeartbeats 1000000 in
/-- The edit distance satisfies the same recurrence at the right ends of both
lists as at the left ends (this is what lets the prefix-indexed dynamic
program of `lev` compute the head-recursive `editDist`). -/
theorem editDist_snoc (x y : Char) :
    ∀ (as bs : List Char),
      editDist (as ++ [x]) (bs ++ [y]) =
        min (min (editDist as (bs ++ [y]) + 1) (editDist (as ++ [x]) bs + 1))
          (editDist as bs + (if y = x then 0 else 1)) := by
  have key : ∀ (n : Nat) (as bs : List Char), as.length + bs.length ≤ n →
      editDist (as ++ [x]) (bs ++ [y]) =
        min (min (editDist as (bs ++ [y]) + 1) (editDist (as ++ [x]) bs + 1))
          (editDist as bs + (if y = x then 0 else 1)) := by
    intro n
    induction n with
    | zero =>
        intro as bs h
        cases as with
        | nil =>
            cases bs with
            | nil => simp only [List.nil_append]; rw [editDist_cons_cons]
            | cons b bs2 => simp at h
        | cons a as2 => simp at h
    | succ n ih =>
        intro as bs h
        cases as with
        | nil =>
            cases bs with
            | nil => simp only [List.nil_append]; rw [editDist_cons_cons]
            | cons b bs2 =>
                have h1 := ih [] bs2 (by simp at h ⊢; omega)
                have e0 := editDist_cons_cons x b [] (bs2 ++ [y])
                have e1 := editDist_cons_cons x b [] bs2
                simp only [List.nil_append, List.cons_append, editDist_nil_left,
                  List.length_append, List.length_cons, List.length_nil] at h1 e0 e1 ⊢
                omega
        | cons a as2 =>
            cases bs with
            | nil =>
                have h1 := ih as2 [] (by simp at h ⊢; omega)
                have e0 := editDist_cons_cons a y as2 []
                have e1 := editDist_cons_cons a y (as2 ++ [x]) []
                simp only [List.nil_append, List.cons_append, List.append_nil,
                  editDist_nil_right, List.length_append, List.length_cons,
                  List.length_nil] at h1 e0 e1 ⊢
                omega
            | cons b bs2 =>
                have h1 := ih as2 (b :: bs2) (by simp at h ⊢; omega)
                have h2 := ih (a :: as2) bs2 (by simp at h ⊢; omega)
                have h3 := ih as2 bs2 (by simp at h ⊢; omega)
                simp only [List.cons_append] at h1 h2 h3 ⊢
                rw [editDist_cons_cons a b, editDist_cons_cons a b, h1, h2, h3,
                  editDist_cons_cons a b, editDist_cons_cons a b]
                exact min_exchange _ _ _ _ _ _ _ _ _ _ _
  intro as bs
  exact key (as.length + bs.length) as bs le_rfl

theorem levRow_rowSpec (bc : Char) :
    ∀ (as pfx bs : List Char),
      levRow as bc (rowSpec pfx as bs) (editDist pfx (bs ++ [bc])) =
        rowSpecTail pfx as (bs ++ [bc]) := by
  intro as
  induction as with
  | nil => intro pfx bs; rfl
  | cons ac as2 ih =>
      intro pfx bs
      have hcell :
          min (min (editDist (pfx ++ [ac]) bs + 1) (editDist pfx (bs ++ [bc]) + 1))
            (editDist pfx bs + (if bc = ac then 0 else 1)) =
          editDist (pfx ++ [ac]) (bs ++ [bc]) := by
        rw [editDist_snoc]
        omega
      show (levRow (ac :: as2) bc
          (editDist pfx bs :: editDist (pfx ++ [ac]) bs :: rowSpecTail (pfx ++ [ac]) as2 bs)
          (editDist pfx (bs ++ [bc]))) = _
      simp only [levRow, List.headD_cons]
      rw [hcell]
      have htail := ih (pfx ++ [ac]) bs
      simp only [rowSpec] at htail
      rw [htail]
      rfl

theorem levRowsLoop_rowSpec (a : List Char) :
    ∀ (brem bdone : List Char),
      levRowsLoop a brem (rowSpec [] a bdone) (bdone.length + 1) =
        rowSpec [] a (bdone ++ brem) := by
  intro brem
  induction brem with
  | nil => intro bdone; simp [levRowsLoop]
  | cons bc bs ih =>
      intro bdone
      show levRowsLoop a bs
        ((bdone.length + 1) :: levRow a bc (rowSpec [] a bdone) (bdone.length + 1))
        (bdone.length + 1 + 1) = _
      have hleft : (bdone.length + 1) = editDist [] (bdone ++ [bc]) := by
        simp [editDist_nil_left]
      have hrow :
          (bdone.length + 1) :: levRow a bc (rowSpec [] a bdone) (bdone.length + 1) =
            rowSpec [] a (bdone ++ [bc]) := by
        rw [hleft, levRow_rowSpec]
        rfl
      rw [hrow]
      have h2 := ih (bdone ++ [bc])
      have hlen : (bdone ++ [bc]).length + 1 = bdone.length + 1 + 1 := by simp
      rw [hlen] at h2
      rw [h2]
      simp [List.append_assoc]

theorem cons_range_map (m c0 : Nat) :
    c0 :: (List.range (m + 1)).map (fun k => c0 + 1 + k) =
      (List.range (m + 1 + 1)).map (fun k => c0 + k) := by
  rw [List.range_succ_eq_map (m + 1), List.map_cons, List.map_map]
  congr 1
  refine List.map_congr_left ?_
  intro k _
  simp [Function.comp]
  omega

theorem rowSpec_nil_right :
    ∀ (as pfx : List Char),
      rowSpec pfx as [] = (List.range (as.length + 1)).map (fun k => pfx.length + k) := by
  intro as
  induction as with
  | nil =>
      intro pfx
      simp [rowSpec, rowSpecTail, editDist_nil_right, List.range_succ]
  | cons ac as2 ih =>
      intro pfx
      have hstep : rowSpec pfx (ac :: as2) [] = pfx.length :: rowSpec (pfx ++ [ac]) as2 [] := by
        simp [rowSpec, rowSpecTail, editDist_nil_right]
      rw [hstep, ih]
      simp only [List.length_append, List.length_cons, List.length_nil]
      exact cons_range_map as2.length pfx.length

theorem rowSpec_getLastD :
    ∀ (as pfx bs : List Char) (d : Nat),
      (rowSpec pfx as bs).getLastD d = editDist (pfx ++ as) bs := by
  intro as
  induction as with
  | nil => intro pfx bs d; simp [rowSpec, rowSpecTail]
  | cons ac as2 ih =>
      intro pfx bs d
      have hstep : rowSpec pfx (ac :: as2) bs = editDist pfx bs :: rowSpec (pfx ++ [ac]) as2 bs := rfl
      rw [hstep, List.getLastD_cons, ih]
      simp

/-- The analyze.js dynamic program `lev` computes exactly the classic
Levenshtein edit distance. -/
theorem lev_eq_editDist (a b : List Char) : lev a b = editDist a b := by
  unfold lev
  have hinit : List.range (a.length + 1) = rowSpec [] a [] := by
    rw [rowSpec_nil_right]
    simp
  rw [hinit]
  have hloop := levRowsLoop_rowSpec a b []
  simp only [List.length_nil, List.nil_append, Nat.zero_add] at hloop
  rw [hloop, rowSpec_getLastD]
  rfl

/-- `lev` on strings is the Levenshtein distance of their character lists. -/
theorem levStr_eq_editDist (a b : String) : levStr a b = editDist a.data b.data :=
  lev_eq_editDist a.data b.data

/- ----------------------- nearestWhitelistStrict lemmas ----------------------- -/

theorem nearestFold_snd (term : String) :
    ∀ (ws : List String) (st : Option String × Nat),
      (ws.foldl (nearestStep term) st).2 =
        ws.foldl (fun acc w => min acc (levStr term w)) st.2 := by
  intro ws
  induction ws with
  | nil => intro st; rfl
  | cons v ws ih =>
      intro st
      show (ws.foldl (nearestStep term) (nearestStep term st v)).2 = _
      rw [ih]
      have hstep : (nearestStep term st v).2 = min st.2 (levStr term v) := by
        simp only [nearestStep]
        split <;> omega
      rw [hstep]
      rfl

theorem foldl_min_le_start (f : String → Nat) :
    ∀ (ws : List String) (b : Nat), ws.foldl (fun acc w => min acc (f w)) b ≤ b := by
  intro ws
  induction ws with
  | nil => intro b; exact le_rfl
  | cons v ws ih =>
      intro b
      exact le_trans (ih (min b (f v))) (min_le_left _ _)

theorem foldl_min_le_mem (f : String → Nat) :
    ∀ (ws : List String) (b : Nat) (v : String), v ∈ ws →
      ws.foldl (fun acc w => min acc (f w)) b ≤ f v := by
  intro ws
  induction ws with
  | nil => intro b v hv; cases hv
  | cons u ws ih =>
      intro b v hv
      rcases List.mem_cons.mp hv with rfl | hv'
      · exact le_trans (foldl_min_le_start f ws (min b (f v))) (min_le_right _ _)
      · exact ih (min b (f u)) v hv'

theorem foldl_min_le_iff (f : String → Nat) (k : Nat) :
    ∀ (ws : List String) (b : Nat),
      ws.foldl (fun acc w => min acc (f w)) b ≤ k ↔ b ≤ k ∨ ∃ v ∈ ws, f v ≤ k := by
  intro ws
  induction ws with
  | nil => intro b; simp
  | cons v ws ih =>
      intro b
      show ws.foldl _ (min b (f v)) ≤ k ↔ _
      rw [ih]
      constructor
      · rintro (h | ⟨w, hw, hfw⟩)
        · rcases min_le_iff.mp h with h' | h'
          · exact Or.inl h'
          · exact Or.inr ⟨v, List.mem_cons_self v ws, h'⟩
        · exact Or.inr ⟨w, List.mem_cons_of_mem v hw, hfw⟩
      · rintro (h | ⟨w, hw, hfw⟩)
        · exact Or.inl (min_le_iff.mpr (Or.inl h))
        · rcases List.mem_cons.mp hw with rfl | hw'
          · exact Or.inl (min_le_iff.mpr (Or.inr hfw))
          · exact Or.inr ⟨w, hw', hfw⟩

theorem nearestFold_best (term : String) :
    ∀ (ws : List String) (st : Option String × Nat),
      (∀ w ∈ ws, w ∈ WHITELIST) →
      (st.2 ≤ 1 → ∃ w, st.1 = some w ∧ w ∈ WHITELIST ∧ levStr term w = st.2) →
      (ws.foldl (nearestStep term) st).2 ≤ 1 →
      ∃ w, (ws.foldl (nearestStep term) st).1 = some w ∧ w ∈ WHITELIST ∧
        levStr term w = (ws.foldl (nearestStep term) st).2 := by
  intro ws
  induction ws with
  | nil => intro st _ hst; exact hst
  | cons v ws ih =>
      intro st hsub hst
      show (ws.foldl (nearestStep term) (nearestStep term st v)).2 ≤ 1 → _
      refine ih (nearestStep term st v) (fun w hw => hsub w (List.mem_cons_of_mem v hw)) ?_
      simp only [nearestStep]
      split
      · intro _
        exact ⟨v, rfl, hsub v (List.mem_cons_self v ws), rfl⟩
      · exact hst

/-- The final best distance of the `nearestWhitelistStrict` scan is the
minimum of 2 and the distances to all whitelist terms. -/
theorem nearestWhitelistStrict_bestDist (term : String) :
    (WHITELIST.foldl (nearestStep term) (none, 2)).2 =
      WHITELIST.foldl (fun acc w => min acc (levStr term w)) 2 :=
  nearestFold_snd term WHITELIST (none, 2)

/-- If the scan accepts, the returned term is a whitelist member at distance
≤ 1, and no whitelist term is strictly closer. -/
theorem nearestWhitelistStrict_some (term w : String)
    (h : nearestWhitelistStrict term = some w) :
    w ∈ WHITELIST ∧ levStr term w ≤ 1 ∧ ∀ v ∈ WHITELIST, levStr term w ≤ levStr term v := by
  unfold nearestWhitelistStrict at h
  by_cases hle : (WHITELIST.foldl (nearestStep term) (none, 2)).2 ≤ 1
  · have hbest := nearestFold_best term WHITELIST (none, 2) (fun w hw => hw)
      (by intro h2; omega) hle
    rcases hbest with ⟨w', hw'1, hw'2, hw'3⟩
    simp only [hle, if_true] at h
    rw [h] at hw'1
    have hww : w = w' := Option.some.inj hw'1
    subst hww
    refine ⟨hw'2, by omega, ?_⟩
    intro v hv
    rw [hw'3, nearestFold_snd]
    exact foldl_min_le_mem (levStr term) WHITELIST 2 v hv
  · simp only [hle, if_false] at h
    cases h

/-- The scan accepts iff some whitelist term is within distance 1. -/
theorem nearestWhitelistStrict_isSome (term : String) :
    (∃ w, nearestWhitelistStrict term = some w) ↔
      ∃ w ∈ WHITELIST, levStr term w ≤ 1 := by
  constructor
  · rintro ⟨w, hw⟩
    rcases nearestWhitelistStrict_some term w hw with ⟨h1, h2, _⟩
    exact ⟨w, h1, h2⟩
  · rintro ⟨w, hw, hlev⟩
    have hle : (WHITELIST.foldl (nearestStep term) (none, 2)).2 ≤ 1 := by
      rw [nearestFold_snd]
      exact (foldl_min_le_iff (levStr term) 1 WHITELIST 2).mpr (Or.inr ⟨w, hw, hlev⟩)
    rcases nearestFold_best term WHITELIST (none, 2) (fun w hw => hw)
        (by intro h2; omega) hle with ⟨w', hw'1, _, _⟩
    refine ⟨w', ?_⟩
    unfold nearestWhitelistStrict
    simp only [hle, if_true]
    exact hw'1

/- ----------------------- cleanPantry lemmas ----------------------- -/

theorem mem_insertUniq (xs : List String) (x y : String) :
    y ∈ insertUniq xs x ↔ y ∈ xs ∨ y = x := by
  unfold insertUniq
  split
  · rename_i hx
    constructor
    · exact Or.inl
    · rintro (h | rfl)
      · exact h
      · exact hx
  · simp [List.mem_append]

theorem nodup_insertUniq (xs : List String) (x : String) (h : xs.Nodup) :
    (insertUniq xs x).Nodup := by
  unfold insertUniq
  split
  · exact h
  · rename_i hx
    simp [List.nodup_append, h, hx]

theorem mem_foldl_insertUniq :
    ∀ (l acc : List String) (x : String),
      x ∈ l.foldl insertUniq acc ↔ x ∈ acc ∨ x ∈ l := by
  intro l
  induction l with
  | nil => intro acc x; simp
  | cons t ts ih =>
      intro acc x
      show x ∈ ts.foldl insertUniq (insertUniq acc t) ↔ _
      rw [ih, mem_insertUniq]
      simp only [List.mem_cons]
      tauto

theorem nodup_foldl_insertUniq :
    ∀ (l acc : List String), acc.Nodup → (l.foldl insertUniq acc).Nodup := by
  intro l
  induction l with
  | nil => intro acc h; exact h
  | cons t ts ih =>
      intro acc h
      exact ih (insertUniq acc t) (nodup_insertUniq acc t h)

theorem cleanStep_eq (out : List String) (t0 : String) :
    cleanStep out t0 =
      match canonToken t0 with
      | some x => insertUniq out x
      | none => out := by
  unfold cleanStep canonToken
  by_cases h1 : mapSyn t0 ∈ WHITELIST
  · simp [h1]
  · by_cases h2 : 5 ≤ (mapSyn t0).length
    · cases h : nearestWhitelistStrict (mapSyn t0) <;> simp [h1, h2, h]
    · simp [h1, h2]

theorem mem_cleanStep (out : List String) (t0 x : String) :
    x ∈ cleanStep out t0 ↔ x ∈ out ∨ canonToken t0 = some x := by
  rw [cleanStep_eq]
  cases h : canonToken t0 with
  | none => simp
  | some y =>
      rw [mem_insertUniq]
      simp [eq_comm]

theorem nodup_cleanStep (out : List String) (t0 : String) (h : out.Nodup) :
    (cleanStep out t0).Nodup := by
  rw [cleanStep_eq]
  cases canonToken t0 with
  | none => exact h
  | some y => exact nodup_insertUniq out y h

theorem mem_foldl_cleanStep :
    ∀ (ts acc : List String) (x : String),
      x ∈ ts.foldl cleanStep acc ↔ x ∈ acc ∨ ∃ t ∈ ts, canonToken t = some x := by
  intro ts
  induction ts with
  | nil => intro acc x; simp
  | cons t ts ih =>
      intro acc x
      show x ∈ ts.foldl cleanStep (cleanStep acc t) ↔ _
      rw [ih, mem_cleanStep]
      simp only [List.mem_cons]
      constructor
      · rintro ((h | h) | ⟨u, hu, hc⟩)
        · exact Or.inl h
        · exact Or.inr ⟨t, Or.inl rfl, h⟩
        · exact Or.inr ⟨u, Or.inr hu, hc⟩
      · rintro (h | ⟨u, (rfl | hu), hc⟩)
        · exact Or.inl (Or.inl h)
        · exact Or.inl (Or.inr hc)
        · exact Or.inr ⟨u, hu, hc⟩

theorem nodup_foldl_cleanStep :
    ∀ (ts acc : List String), acc.Nodup → (ts.foldl cleanStep acc).Nodup := by
  intro ts
  induction ts with
  | nil => intro acc h; exact h
  | cons t ts ih =>
      intro acc h
      exact ih (cleanStep acc t) (nodup_cleanStep acc t h)

/-- A token contributes only whitelist members. -/
theorem canonToken_mem_whitelist (t x : String) (h : canonToken t = some x) :
    x ∈ WHITELIST := by
  unfold canonToken at h
  by_cases h1 : mapSyn t ∈ WHITELIST
  · simp only [if_pos h1] at h
    injection h with h'
    rw [← h']
    exact h1
  · by_cases h2 : 5 ≤ (mapSyn t).length
    · simp only [if_neg h1, if_pos h2] at h
      exact (nearestWhitelistStrict_some (mapSyn t) x h).1
    · simp only [if_neg h1, if_neg h2] at h
      cases h

/-- Membership characterization of `cleanPantry`: an ingredient is in the
output iff some raw token lowercases to a token contributing it. -/
theorem mem_cleanPantry (raw : List String) (x : String) :
    x ∈ cleanPantry raw ↔ ∃ s ∈ raw, canonToken (strLower s) = some x := by
  unfold cleanPantry
  rw [mem_foldl_cleanStep]
  simp only [List.not_mem_nil, false_or]
  constructor
  · rintro ⟨t, ht, hc⟩
    rw [uniqLower, mem_foldl_insertUniq] at ht
    simp only [List.not_mem_nil, false_or, List.mem_map] at ht
    rcases ht with ⟨s, hs, rfl⟩
    exact ⟨s, hs, hc⟩
  · rintro ⟨s, hs, hc⟩
    refine ⟨strLower s, ?_, hc⟩
    rw [uniqLower, mem_foldl_insertUniq]
    simp only [List.not_mem_nil, false_or, List.mem_map]
    exact ⟨s, hs, rfl⟩

/- ----------------------- Claim theorems ----------------------- -/

/-- Claim C3: for every raw token sequence, `cleanPantry` terminates (it is a
total Lean function), never raises, and returns a duplicate-free list every
element of which belongs to the canonical vocabulary `WHITELIST`. -/
theorem c3_cleanPantry_nodup_closure (raw : List String) :
    (cleanPantry raw).Nodup ∧ ∀ x ∈ cleanPantry raw, x ∈ WHITELIST := by
  constructor
  · exact nodup_foldl_cleanStep (uniqLower raw) [] List.nodup_nil
  · intro x hx
    rcases (mem_cleanPantry raw x).mp hx with ⟨s, _, hc⟩
    exact canonToken_mem_whitelist _ x hc

set_option maxRecDepth 40000 in
/-- Witness for C3 at the spec's own example token list. -/
theorem c3_witness :
    (cleanPantry ["Banana", "banana", "BROCCOLI", "plastic container"]).Nodup ∧
      "banana" ∈ WHITELIST :=
  ⟨(c3_cleanPantry_nodup_closure ["Banana", "banana", "BROCCOLI", "plastic container"]).1,
   (c3_cleanPantry_nodup_closure ["Banana", "banana", "BROCCOLI", "plastic container"]).2
     "banana" (by decide)⟩

/-- Claim C10: the set of canonical ingredients produced by `cleanPantry` is
invariant under permutations of the raw token list. -/
theorem c10_cleanPantry_perm_invariant (raw1 raw2 : List String)
    (hperm : raw1.Perm raw2) (x : String) :
    x ∈ cleanPantry raw1 ↔ x ∈ cleanPantry raw2 := by
  rw [mem_cleanPantry, mem_cleanPantry]
  constructor
  · rintro ⟨s, hs, hc⟩
    exact ⟨s, hperm.mem_iff.mp hs, hc⟩
  · rintro ⟨s, hs, hc⟩
    exact ⟨s, hperm.mem_iff.mpr hs, hc⟩

/-- Witness for C10 on a concrete two-token swap. -/
theorem c10_witness :
    "tomatoes" ∈ cleanPantry ["tomato", "onion"] ↔
      "tomatoes" ∈ cleanPantry ["onion", "tomato"] :=
  c10_cleanPantry_perm_invariant ["tomato", "onion"] ["onion", "tomato"]
    (List.Perm.swap "onion" "tomato" []) "tomatoes"

/-- Claim C4: a lowercased token of length < 5 that is neither a synonym-map
key nor an exact vocabulary member contributes nothing to the pantry (fuzzy
matching is never attempted for it); and `nearestWhitelistStrict` accepts iff
some vocabulary term is within Levenshtein distance 1, in which case the
returned term is a vocabulary member at minimal distance.  `editDist` is the
classic Levenshtein recursion and `lev_eq_editDist` identifies it with the
program's `lev`. -/
theorem c4_short_token_gate_and_fuzzy_rule :
    (∀ (s : String) (raw : List String) (x : String),
      MAP.lookup (strLower s) = none → strLower s ∉ WHITELIST → (strLower s).length < 5 →
      (x ∈ cleanPantry (s :: raw) ↔ x ∈ cleanPantry raw)) ∧
    (∀ t : String,
      (∃ w, nearestWhitelistStrict t = some w) ↔
        ∃ w ∈ WHITELIST, editDist t.data w.data ≤ 1) ∧
    (∀ t w : String, nearestWhitelistStrict t = some w →
      w ∈ WHITELIST ∧ editDist t.data w.data ≤ 1 ∧
        ∀ v ∈ WHITELIST, editDist t.data w.data ≤ editDist t.data v.data) := by
  refine ⟨?_, ?_, ?_⟩
  · intro s raw x hlookup hmem hlen
    have hmap : mapSyn (strLower s) = strLower s := by
      unfold mapSyn
      rw [hlookup]
    have hnone : canonToken (strLower s) = none := by
      simp only [canonToken, hmap]
      rw [if_neg hmem, if_neg (by omega : ¬ 5 ≤ (strLower s).length)]
    rw [mem_cleanPantry, mem_cleanPantry]
    constructor
    · rintro ⟨u, hu, hc⟩
      rcases List.mem_cons.mp hu with rfl | hu'
      · rw [hnone] at hc
        cases hc
      · exact ⟨u, hu', hc⟩
    · rintro ⟨u, hu, hc⟩
      exact ⟨u, List.mem_cons_of_mem s hu, hc⟩
  · intro t
    rw [nearestWhitelistStrict_isSome]
    constructor
    · rintro ⟨w, hw, hl⟩
      refine ⟨w, hw, ?_⟩
      rw [← levStr_eq_editDist]
      exact hl
    · rintro ⟨w, hw, hl⟩
      refine ⟨w, hw, ?_⟩
      rw [levStr_eq_editDist]
      exact hl
  · intro t w h
    rcases nearestWhitelistStrict_some t w h with ⟨h1, h2, h3⟩
    refine ⟨h1, ?_, ?_⟩
    · rw [← levStr_eq_editDist]
      exact h2
    · intro v hv
      rw [← levStr_eq_editDist, ← levStr_eq_editDist]
      exact h3 v hv

set_option maxRecDepth 40000 in
/-- Witness for C4: the short token "xyz" is dropped, and "brocoli" snaps to
"broccoli" (the spec's own example). -/
theorem c4_witness :
    ("banana" ∈ cleanPantry ["xyz", "banana"] ↔ "banana" ∈ cleanPantry ["banana"]) ∧
    ("broccoli" ∈ WHITELIST ∧ editDist "brocoli".data "broccoli".data ≤ 1 ∧
      ∀ v ∈ WHITELIST, editDist "brocoli".data "broccoli".data ≤ editDist "brocoli".data v.data) :=
  ⟨c4_short_token_gate_and_fuzzy_rule.1 "xyz" ["banana"] "banana"
      (by decide) (by decide) (by decide),
   c4_short_token_gate_and_fuzzy_rule.2.2 "brocoli" "broccoli" (by decide)⟩

/-- Monotonicity of the two-decimal rounding step. -/
theorem roundTwo_mono {x y : ℚ} (h : x ≤ y) : roundTwo x ≤ roundTwo y := by
  unfold roundTwo
  have h1 : (⌊x * 100 + 1/2⌋ : ℤ) ≤ ⌊y * 100 + 1/2⌋ := Int.floor_le_floor (by linarith)
  have h2 : ((⌊x * 100 + 1/2⌋ : ℤ) : ℚ) ≤ ((⌊y * 100 + 1/2⌋ : ℤ) : ℚ) := by exact_mod_cast h1
  linarith

/-- The unrounded score is strictly increasing in the used-ingredient count. -/
theorem rawScore_strictMono_used {u u2 : Nat} (m : Nat) (t : Int) (h : u < u2) :
    rawScore u m t < rawScore u2 m t := by
  unfold rawScore
  have key : (u : ℚ) / ((u : ℚ) + m + 1) < (u2 : ℚ) / ((u2 : ℚ) + m + 1) := by
    rw [div_lt_div_iff₀ (by positivity) (by positivity)]
    have hu : (u : ℚ) < u2 := by exact_mod_cast h
    have hm : (0 : ℚ) ≤ m := by positivity
    nlinarith
  linarith

/-- The unrounded score does not decrease when the ready time decreases. -/
theorem rawScore_mono_time (u m : Nat) {t t2 : Int} (h : t2 ≤ t) :
    rawScore u m t ≤ rawScore u m t2 := by
  unfold rawScore
  have hmin : min ((t2 : ℚ)) 60 ≤ min ((t : ℚ)) 60 := by
    apply min_le_min _ le_rfl
    exact_mod_cast h
  linarith

/-- Counterexample to claim C5 as stated: after the two-decimal rounding the
code applies (`Math.round(score * 100) / 100`), increasing the used count from
12 to 13 (missed 0, time 60) does NOT strictly increase the score — both round
to 0.65. -/
theorem c5_counterexample :
    (12 : Nat) < 13 ∧ roundTwo (rawScore 12 0 60) = roundTwo (rawScore 13 0 60) := by
  refine ⟨by norm_num, ?_⟩
  have h1 : rawScore 12 0 60 = 42/65 := by unfold rawScore; norm_num
  have h2 : rawScore 13 0 60 = 13/20 := by unfold rawScore; norm_num
  unfold roundTwo
  rw [h1, h2]
  norm_num [Int.floor_eq_iff]

/-- Claim C5 (amended): the unrounded score `rawScore` strictly increases with
the used count (missed count and time fixed) and does not decrease when the
ready time decreases; the two-decimal rounded score as returned by the code is
monotone (non-strictly) in both senses. -/
theorem c5_amended_score_monotonicity (u u2 m : Nat) (t t2 : Int) :
    (u < u2 →
      rawScore u m t < rawScore u2 m t ∧
      roundTwo (rawScore u m t) ≤ roundTwo (rawScore u2 m t)) ∧
    (t2 ≤ t →
      rawScore u m t ≤ rawScore u m t2 ∧
      roundTwo (rawScore u m t) ≤ roundTwo (rawScore u m t2)) := by
  constructor
  · intro h
    have hs := rawScore_strictMono_used m t h
    exact ⟨hs, roundTwo_mono (le_of_lt hs)⟩
  · intro h
    have hs := rawScore_mono_time u m h
    exact ⟨hs, roundTwo_mono hs⟩

/-- Witness for the amended C5 at used 1 < 2 and times 50 ≤ 60. -/
theorem c5_witness :
    (rawScore 1 0 60 < rawScore 2 0 60 ∧
      roundTwo (rawScore 1 0 60) ≤ roundTwo (rawScore 2 0 60)) ∧
    (rawScore 1 0 60 ≤ rawScore 1 0 50 ∧
      roundTwo (rawScore 1 0 60) ≤ roundTwo (rawScore 1 0 50)) :=
  ⟨(c5_amended_score_monotonicity 1 2 0 60 50).1 (by norm_num),
   (c5_amended_score_monotonicity 1 2 0 60 50).2 (by norm_num)⟩

/-- Claim C6: both revisions' strict admissibility filters reject every
candidate whose declared ready time exceeds the effective cap
`max(10, prefs.time + 10)`. -/
theorem c6_time_cap_rejection (pantry : List String) (prefs : Prefs)
    (it : RawCandidate) (t : Int) (hr : it.readyInMinutes = some t)
    (ht : timeCapOf prefs < t) :
    strictFilter pantry (timeCapOf prefs) it = false ∧
      strictFilterFinal pantry (timeCapOf prefs) it = false := by
  constructor
  · simp only [strictFilter, hr, Option.getD_some]
    split_ifs <;> first | rfl | (exfalso; omega)
  · simp only [strictFilterFinal, hr, Option.getD_some]
    split_ifs <;> first | rfl | (exfalso; omega)

/-- Witness for C6: `readyInMinutes = 50` is rejected at `prefs.time = 20`
(cap 30), for an arbitrary pantry. -/
theorem c6_witness :
    strictFilter ["pasta", "tomatoes"] (timeCapOf demoPrefs) demoCand50 = false ∧
      strictFilterFinal ["pasta", "tomatoes"] (timeCapOf demoPrefs) demoCand50 = false :=
  c6_time_cap_rejection ["pasta", "tomatoes"] demoPrefs demoCand50 50 rfl (by decide)

/-- Claim C2 is false on the code (code bug): when strict filtering rejects
every raw candidate, both revisions fall back to the COMPLETELY UNFILTERED raw
list (`const baseList = filtered.length ? filtered : raw`), so a
dessert-titled candidate with a ready time far above the cap is returned. -/
theorem c2_fallback_keeps_dessert_and_overtime :
    (∃ r ∈ spoonacularSelectFinal ["onion", "garlic"] demoPrefs [demoBrownie],
        titleHasAny r.title DESSERT = true ∧ timeCapOf demoPrefs < r.time) ∧
    (∃ r ∈ spoonacularSelect ["onion", "garlic"] demoPrefs [demoBrownie],
        titleHasAny r.title DESSERT = true ∧ timeCapOf demoPrefs < r.time) := by
  constructor
  · decide
  · decide

/-- Length bounds of the final-revision merge normalization step. -/
theorem merge_norm_bounds (c : List Recipe) (e : Recipe) :
    1 ≤ (if c.length = 0 then [e] else if c.length > 3 then c.take 3 else c).length ∧
      (if c.length = 0 then [e] else if c.length > 3 then c.take 3 else c).length ≤ 3 := by
  split_ifs with h1 h2
  · simp
  · simp only [List.length_take]
    omega
  · omega

/-- Length bounds of the second-revision truncation step, given a non-empty
input. -/
theorem norm_bounds_aux (c : List Recipe) (hc : 1 ≤ c.length) :
    1 ≤ (if c.length > 3 then c.take 3 else c).length ∧
      (if c.length > 3 then c.take 3 else c).length ≤ 3 := by
  split_ifs with h1
  · simp only [List.length_take]
    omega
  · omega

/-- The emergency backfill guarantees a non-empty list. -/
theorem nonempty_if (c2 : List Recipe) (e : Recipe) :
    1 ≤ (if c2.length = 0 then [e] else c2).length := by
  split_ifs with h1
  · simp
  · omega

/-- Claim C1: for any provider outcomes and any pantry, both revisions' merge
logic returns between 1 and 3 recipes, and when both providers yield nothing
the sole result is the locally synthesized emergency recipe. -/
theorem c1_merge_nonempty_bounded (spoonList llmList : List Recipe)
    (pantry : List String) (now : Nat) (rand : String) :
    (1 ≤ (mergeFinal spoonList llmList pantry now).length ∧
      (mergeFinal spoonList llmList pantry now).length ≤ 3) ∧
    (1 ≤ (mergeHandler spoonList llmList pantry now rand).length ∧
      (mergeHandler spoonList llmList pantry now rand).length ≤ 3) ∧
    (spoonList = [] → llmList = [] →
      mergeFinal spoonList llmList pantry now = [emergencyRecipeFinal pantry now] ∧
      mergeHandler spoonList llmList pantry now rand = [emergencyRecipe pantry now rand]) := by
  refine ⟨?_, ?_, ?_⟩
  · unfold mergeFinal
    exact merge_norm_bounds _ _
  · unfold mergeHandler
    exact norm_bounds_aux _ (nonempty_if _ _)
  · rintro rfl rfl
    exact ⟨rfl, rfl⟩

/-- Witness for C1 with both provider lists empty. -/
theorem c1_witness :
    (1 ≤ (mergeFinal [] [] ["onion"] 7).length ∧
      (mergeFinal [] [] ["onion"] 7).length ≤ 3) ∧
    (1 ≤ (mergeHandler [] [] ["onion"] 7 "zz").length ∧
      (mergeHandler [] [] ["onion"] 7 "zz").length ≤ 3) ∧
    (mergeFinal [] [] ["onion"] 7 = [emergencyRecipeFinal ["onion"] 7] ∧
      mergeHandler [] [] ["onion"] 7 "zz" = [emergencyRecipe ["onion"] 7 "zz"]) :=
  ⟨(c1_merge_nonempty_bounded [] [] ["onion"] 7 "zz").1,
   (c1_merge_nonempty_bounded [] [] ["onion"] 7 "zz").2.1,
   (c1_merge_nonempty_bounded [] [] ["onion"] 7 "zz").2.2 rfl rfl⟩

/-- Claim C7: when the watchdog race rejects (`none` outcome), the handler
still answers with status 200, an empty pantry, exactly the one emergency
recipe synthesized from the empty pantry, and a debug source naming the
watchdog; no 5xx is ever produced for a timeout. -/
theorem c7_watchdog_success_shape (now : Nat) :
    (handlerRespond none now).status = 200 ∧
    (handlerRespond none now).pantry = [] ∧
    (handlerRespond none now).recipes = [emergencyRecipeFinal [] now] ∧
    (handlerRespond none now).recipes.length = 1 ∧
    (handlerRespond none now).debugSource = "watchdog" :=
  ⟨rfl, rfl, rfl, rfl, rfl⟩

/-- Counterexample to claim C8 as stated: two invocations of the second
revision's `emergencyRecipe` on the same pantry at different clock/random
draws produce different recipes (their ids differ). -/
theorem c8_counterexample :
    emergencyRecipe ["onion"] 1000 "abc123" ≠ emergencyRecipe ["onion"] 1001 "xyz789" := by
  intro h
  have hid := congrArg Recipe.id h
  simp only [emergencyRecipe] at hid
  exact absurd hid (by decide)

/-- Claim C8 (amended): except for the identity string (which embeds
`Date.now()` and, in the second revision, a `Math.random()` suffix), the
emergency recipe is a deterministic pure function of the pantry: title,
timing, cost, energy, score, ingredients, steps, badges and shopping list are
identical across invocations, in both revisions. -/
theorem c8_amended_deterministic_except_id (pantry : List String)
    (n1 n2 : Nat) (r1 r2 : String) :
    ((emergencyRecipe pantry n1 r1).title = (emergencyRecipe pantry n2 r2).title ∧
     (emergencyRecipe pantry n1 r1).time = (emergencyRecipe pantry n2 r2).time ∧
     (emergencyRecipe pantry n1 r1).cost = (emergencyRecipe pantry n2 r2).cost ∧
     (emergencyRecipe pantry n1 r1).energy = (emergencyRecipe pantry n2 r2).energy ∧
     (emergencyRecipe pantry n1 r1).score = (emergencyRecipe pantry n2 r2).score ∧
     (emergencyRecipe pantry n1 r1).ingredients = (emergencyRecipe pantry n2 r2).ingredients ∧
     (emergencyRecipe pantry n1 r1).steps = (emergencyRecipe pantry n2 r2).steps ∧
     (emergencyRecipe pantry n1 r1).badges = (emergencyRecipe pantry n2 r2).badges ∧
     (emergencyRecipe pantry n1 r1).shoppingList = (emergencyRecipe pantry n2 r2).shoppingList) ∧
    ((emergencyRecipeFinal pantry n1).title = (emergencyRecipeFinal pantry n2).title ∧
     (emergencyRecipeFinal pantry n1).ingredients = (emergencyRecipeFinal pantry n2).ingredients ∧
     (emergencyRecipeFinal pantry n1).steps = (emergencyRecipeFinal pantry n2).steps) :=
  ⟨⟨rfl, rfl, rfl, rfl, rfl, rfl, rfl, rfl, rfl⟩, ⟨rfl, rfl, rfl⟩⟩

/-- Claim C9: the search request carries `diet=vegetarian` iff the pantry
contains no meat-family word, and the request parameters are a function of
the pantry and `prefs.time` alone — in particular `prefs.diet` is never
forwarded. -/
theorem c9_diet_param_from_pantry_only (key : String) (pantry : List String)
    (prefs : Prefs) :
    ((("diet", "vegetarian") ∈ spoonSearchParams key pantry prefs) ↔
      ∀ p ∈ pantry, p ∉ MEAT) ∧
    (∀ prefs2 : Prefs, prefs2.time = prefs.time →
      spoonSearchParams key pantry prefs2 = spoonSearchParams key pantry prefs) := by
  constructor
  · unfold spoonSearchParams
    by_cases h : pantry.any (fun p => MEAT.contains p)
    · simp only [h, if_true]
      simp [List.any_eq_true] at h ⊢
      exact h
    · simp only [h, if_false]
      simp [List.any_eq_true] at h ⊢
      exact h
  · intro prefs2 htime
    unfold spoonSearchParams timeCapOf
    rw [htime]

/-- Witness for C9: a meat-free pantry gets the vegetarian filter, and a
stated vegan diet preference changes nothing in the request. -/
theorem c9_witness :
    ((("diet", "vegetarian") ∈ spoonSearchParams "KEY" ["banana"] demoPrefs) ↔
      ∀ p ∈ ["banana"], p ∉ MEAT) ∧
    spoonSearchParams "KEY" ["banana"] demoPrefsVegan =
      spoonSearchParams "KEY" ["banana"] demoPrefs :=
  ⟨(c9_diet_param_from_pantry_only "KEY" ["banana"] demoPrefs).1,
   (c9_diet_param_from_pantry_only "KEY" ["banana"] demoPrefs).2 demoPrefsVegan rfl⟩

end DinnerSnap
